import Mathlib

/-!
Verification of the dotpak archive pipeline (github.com/ospiem/dotpak).

We shallowly embed the Go source of the core archive pipeline:
path-safety validation and the archive extractor
(internal/restore/restore.go), the exclusion matcher and file collector
(internal/backup), the archive writer (internal/backup/encrypt.go), the
safety-backup generator and the restore driver (internal/restore/restore.go),
and the glob matcher from Go's path/filepath that the exclusion matcher
delegates to.

Strings are modelled as lists of characters (Go iterates over bytes; all the
relevant code only ever inspects ASCII bytes, for which byte-wise and
character-wise processing coincide).  The platform is Unix: the path
separator is the slash, and filepath.IsAbs holds exactly for paths with a
leading slash.  Filesystem interaction is modelled by explicit traces of
filesystem mutations, and external effects (the prompt, the encryption
collaborator, on-disk existence) are parameters of the embedded functions.
-/

namespace Dotpak

/-! ## String helpers (Go strings / path/filepath primitives) -/

/-- Go strings.Split(s, "/"): split into fields separated by the slash,
keeping empty fields; the empty string yields one empty field. -/
def splitSlash : List Char → List (List Char)
  | [] => [[]]
  | c :: t =>
    if c = '/' then [] :: splitSlash t
    else
      match splitSlash t with
      | h :: r => (c :: h) :: r
      | [] => [[c]]

/-- Go strings.Contains(s, sub): sub occurs as a contiguous substring of s. -/
def hasSub (s sub : List Char) : Bool :=
  if sub.isPrefixOf s then true
  else
    match s with
    | [] => false
    | _ :: t => hasSub t sub

/-- Go strings.TrimPrefix(s, pre): drop pre from the front when present. -/
def trimPre (s pre : List Char) : List Char :=
  if pre.isPrefixOf s then s.drop pre.length else s

/-- ASCII whitespace, the cases strings.TrimSpace strips in our inputs. -/
def isSpaceChar (c : Char) : Bool :=
  c = ' ' || c = '\t' || c = '\n' || c = '\r'

/-- Go strings.TrimSpace for ASCII input. -/
def trimSpace (s : List Char) : List Char :=
  ((s.dropWhile isSpaceChar).reverse.dropWhile isSpaceChar).reverse

/-! ## path/filepath primitives (Unix) -/

/-- Go filepath.IsAbs on Unix: the path begins with a slash. -/
def goIsAbs (p : List Char) : Bool :=
  match p with
  | '/' :: _ => true
  | _ => false

/-- One step of the lexical processing performed by Go filepath.Clean: the
accumulator holds the already-processed components in reverse order.  Empty
and dot components are dropped; a dotdot component pops the previous real
component, is dropped at the root of a rooted path, and is kept when the
path is relative and nothing is left to pop. -/
def cleanStep (rooted : Bool) (acc : List (List Char)) (comp : List Char) :
    List (List Char) :=
  if comp = [] || comp = ['.'] then acc
  else if comp = ['.', '.'] then
    match acc with
    | [] => if rooted then [] else [['.', '.']]
    | top :: restAcc => if top = ['.', '.'] then comp :: acc else restAcc
  else comp :: acc

/-- Go filepath.Clean on Unix: purely lexical shortest-equivalent path.
Multiple slashes collapse, dot components vanish, dotdot components
eliminate the preceding component (and vanish at the root of a rooted
path); the empty result becomes a single dot. -/
def goClean (p : List Char) : List Char :=
  if p = [] then ['.']
  else
    let rooted := goIsAbs p
    let comps := ((splitSlash p).foldl (cleanStep rooted) []).reverse
    if comps = [] then (if rooted then ['/'] else ['.'])
    else (if rooted then ['/'] else []) ++ List.intercalate ['/'] comps

/-- Go filepath.Join for two elements: empty elements are dropped, the rest
are joined with a slash, and the result is cleaned. -/
def goJoin2 (a b : List Char) : List Char :=
  if a = [] then (if b = [] then [] else goClean b)
  else if b = [] then goClean a
  else goClean (a ++ '/' :: b)

/-- Go filepath.Dir: everything up to (and including) the final slash,
cleaned; a path without a slash has directory dot. -/
def goDir (p : List Char) : List Char :=
  goClean ((p.reverse.dropWhile (fun c => c ≠ '/')).reverse)

/-- Go filepath.Base: the last element of the path after trailing slashes
are removed; empty input gives dot and an all-slash input gives slash. -/
def goBase (p : List Char) : List Char :=
  if p = [] then ['.']
  else
    let q := (p.reverse.dropWhile (fun c => c = '/')).reverse
    let r := (q.reverse.takeWhile (fun c => c ≠ '/')).reverse
    if r = [] then ['/'] else r

/-- Go filepath.Abs: a rooted path is just cleaned, a relative path is
joined onto the working directory (filepath.Join(wd, path)). -/
def goAbsPath (cwd p : List Char) : List Char :=
  if goIsAbs p then goClean p else goJoin2 cwd p

/-! ## Path Safety Validator (internal/restore/restore.go) -/

/-- isSafePath from internal/restore/restore.go (the spec's
isSafeRelativePath).  The empty path is accepted; then the path is rejected
if it contains a NUL byte, is absolute, starts with a slash or a tilde, if
its cleaned form starts with dotdot, or if splitting on the slash (Go also
splits on the platform separator, which on Unix is again the slash) yields
a dotdot component. -/
def isSafePath (p : List Char) : Bool :=
  if p = [] then true
  else if p.contains '\x00' then false
  else if goIsAbs p then false
  else if ['/'].isPrefixOf p || ['~'].isPrefixOf p then false
  else if ['.', '.'].isPrefixOf (goClean p) then false
  else if (splitSlash p).contains ['.', '.'] then false
  else if (splitSlash p).contains ['.', '.'] then false
  else true

/-- isPathWithinBase from internal/restore/restore.go: resolve both paths
to absolute form and require the target to equal the base or sit strictly
under base-plus-separator.  The working directory used by filepath.Abs for
relative inputs is an explicit parameter. -/
def isPathWithinBase (cwd target base : List Char) : Bool :=
  let absTarget := goAbsPath cwd target
  let absBase := goAbsPath cwd base
  (absBase ++ ['/']).isPrefixOf absTarget || absTarget = absBase

/-! ## Glob matching (Go path/filepath.Match, Unix build)

The Go matcher works chunk-wise: scanChunk splits the pattern into an
optional leading star plus the next literal chunk; matchChunk consumes one
chunk against the head of the name; the main loop backtracks over star
positions.  The recursions are not structural, so each function carries an
explicit fuel argument; every call site seeds the fuel with a bound that
provably dominates the number of iterations (each iteration strictly
consumes pattern or name characters), so the out-of-fuel branches are
unreachable. -/

/-- getEsc from path/filepath: read one possibly escaped character of a
character class; none models ErrBadPattern. -/
def getEsc : List Char → Option (Char × List Char)
  | [] => none
  | c :: rest =>
    if c = '-' || c = ']' then none
    else if c = '\\' then
      match rest with
      | [] => none
      | r :: rest2 => if rest2 = [] then none else some (r, rest2)
    else if rest = [] then none else some (c, rest)

/-- The range-parsing loop of matchChunk's character-class case: r is the
rune read from the name, nrange counts parsed ranges, acc accumulates
whether any range matched.  Returns the match flag and the chunk remainder
after the closing bracket, or none for a malformed class. -/
def parseRanges (r : Char) : Nat → List Char → Nat → Bool → Option (Bool × List Char)
  | 0, _, _, _ => none
  | fuel + 1, chunk, nrange, acc =>
    match chunk with
    | ']' :: t =>
      if nrange > 0 then some (acc, t) else none
    | _ =>
      match getEsc chunk with
      | none => none
      | some (lo, c1) =>
        match c1 with
        | '-' :: c1t =>
          match getEsc c1t with
          | none => none
          | some (hi, c2) => parseRanges r fuel c2 (nrange + 1) (acc || (lo ≤ r && r ≤ hi))
        | _ => parseRanges r fuel c1 (nrange + 1) (acc || (lo ≤ r && r ≤ lo))

/-- Result of matchChunk: bad pattern, failed match, or success with the
unconsumed remainder of the name. -/
inductive ChunkRes
  | bad
  | nomatch
  | ok (rest : List Char)
  deriving DecidableEq

/-- matchChunk from path/filepath: match a star-free chunk against the
beginning of s.  Once the match has failed the loop keeps scanning the
chunk so that malformed patterns are still reported. -/
def matchChunk : Nat → List Char → List Char → Bool → ChunkRes
  | 0, _, _, _ => .bad
  | fuel + 1, chunk, s, failed0 =>
    match chunk with
    | [] => if failed0 then .nomatch else .ok s
    | c :: rest =>
      let failed := failed0 || s.isEmpty
      if c = '[' then
        let rs : Char × List Char :=
          match failed, s with
          | false, a :: s1 => (a, s1)
          | _, _ => ('\x00', s)
        let ng : Bool × List Char :=
          match rest with
          | '^' :: t => (true, t)
          | _ => (false, rest)
        match parseRanges rs.1 (ng.2.length + 1) ng.2 0 false with
        | none => .bad
        | some (m, chunk2) => matchChunk fuel chunk2 rs.2 (failed || (m == ng.1))
      else if c = '?' then
        match failed, s with
        | false, a :: s1 => matchChunk fuel rest s1 (a = '/')
        | _, _ => matchChunk fuel rest s true
      else if c = '\\' then
        match rest with
        | [] => .bad
        | d :: rest2 =>
          match failed, s with
          | false, a :: s1 => matchChunk fuel rest2 s1 (d ≠ a)
          | _, _ => matchChunk fuel rest2 s true
      else
        match failed, s with
        | false, a :: s1 => matchChunk fuel rest s1 (c ≠ a)
        | _, _ => matchChunk fuel rest s true

/-- The leading-star stripping of scanChunk. -/
def stripStars : List Char → Bool × List Char
  | '*' :: t => (true, (stripStars t).2)
  | p => (false, p)

/-- The chunk-scanning loop of scanChunk: cut the pattern at the next
top-level star, tracking escape pairs and character-class brackets. -/
def scanBody : List Char → Bool → List Char × List Char
  | [], _ => ([], [])
  | c :: t, inr =>
    if c = '\\' then
      match t with
      | [] => ([c], [])
      | d :: t2 =>
        let ab := scanBody t2 inr
        (c :: d :: ab.1, ab.2)
    else if c = '[' then
      let ab := scanBody t true
      (c :: ab.1, ab.2)
    else if c = ']' then
      let ab := scanBody t false
      (c :: ab.1, ab.2)
    else if c = '*' then
      if inr then
        let ab := scanBody t true
        (c :: ab.1, ab.2)
      else ([], c :: t)
    else
      let ab := scanBody t inr
      (c :: ab.1, ab.2)

/-- scanChunk from path/filepath: strip leading stars, then return the
chunk up to the next top-level star together with the rest. -/
def scanChunk (pattern : List Char) : Bool × List Char × List Char :=
  let sp := stripStars pattern
  let cb := scanBody sp.2 false
  (sp.1, cb.1, cb.2)

/-- The syntactic-validity sweep Match performs over the unprocessed rest
of the pattern before returning an unmatched result. -/
def syntaxChk : Nat → List Char → Option Bool
  | 0, _ => none
  | fuel + 1, pattern =>
    match pattern with
    | [] => some false
    | _ :: _ =>
      let sc := scanChunk pattern
      match matchChunk (sc.2.1.length + 1) sc.2.1 [] false with
      | .bad => none
      | _ => syntaxChk fuel sc.2.2

mutual

/-- The main loop of path/filepath.Match over (pattern, name); none models
ErrBadPattern. -/
def matchLoop : Nat → List Char → List Char → Option Bool
  | 0, _, _ => none
  | fuel + 1, pattern, name =>
    match pattern with
    | [] => some name.isEmpty
    | _ :: _ =>
      let sc := scanChunk pattern
      let star := sc.1
      let chunk := sc.2.1
      let rest := sc.2.2
      if star && chunk.isEmpty then
        some (!(name.contains '/'))
      else
        match matchChunk (chunk.length + 1) chunk name false with
        | .bad => none
        | .ok t =>
          if t.isEmpty || !rest.isEmpty then matchLoop fuel rest t
          else if star then starSearch fuel chunk rest name
          else syntaxChk (rest.length + 1) rest
        | .nomatch =>
          if star then starSearch fuel chunk rest name
          else syntaxChk (rest.length + 1) rest

/-- The star backtracking loop of path/filepath.Match: try to match the
chunk at every later position of the name, stopping at a slash. -/
def starSearch : Nat → List Char → List Char → List Char → Option Bool
  | 0, _, _, _ => none
  | fuel + 1, chunk, rest, name =>
    match name with
    | [] => syntaxChk (rest.length + 1) rest
    | c :: nt =>
      if c = '/' then syntaxChk (rest.length + 1) rest
      else
        match matchChunk (chunk.length + 1) chunk nt false with
        | .bad => none
        | .ok t =>
          if rest.isEmpty && !t.isEmpty then starSearch fuel chunk rest nt
          else matchLoop fuel rest t
        | .nomatch => starSearch fuel chunk rest nt

end

/-- path/filepath.Match: some b is (b, nil), none is ErrBadPattern.  The
fuel dominates the iteration count: the main loop strictly consumes the
pattern and the star loop strictly consumes the name. -/
def goMatch (pattern name : List Char) : Option Bool :=
  matchLoop ((pattern.length + 1) * (name.length + 2)) pattern name

/-! ## Exclusion Matcher (Backup.isExcluded, internal/backup) -/

/-- The guard Go uses around filepath.Match: matched and err == nil. -/
def matchedOk (pattern s : List Char) : Bool :=
  match goMatch pattern s with
  | some b => b
  | none => false

/-- Backup.isExcluded: a path is excluded when any configured pattern
glob-matches the base name, glob-matches the full relative path, equals
the base name, is a leading or trailing path component, or occurs as an
interior path component. -/
def isExcluded (patterns : List (List Char)) (path : List Char) : Bool :=
  let name := goBase path
  patterns.any fun pattern =>
    matchedOk pattern name ||
    matchedOk pattern path ||
    name = pattern ||
    ((pattern ++ ['/']).isPrefixOf path || (['/'] ++ pattern).isSuffixOf path) ||
    hasSub path ('/' :: pattern ++ ['/'])

/-! ## Quota constants (internal/osutils/utils.go) -/

/-- MaxExtractFileSize: per-file extraction ceiling, 1 GB. -/
def maxExtractFileSize : Nat := 1 <<< 30

/-- MaxExtractTotalSize: cumulative extraction ceiling, 10 GB. -/
def maxExtractTotalSize : Nat := 10 <<< 30

/-! ## Category Matcher (internal/restore/restore.go) -/

/-- The static Categories table mapping category names to path prefixes. -/
def Categories : List (List Char × List (List Char)) :=
  [ ("shell".toList,
     [".zshrc".toList, ".bashrc".toList, ".profile".toList, ".zprofile".toList,
      ".bash_profile".toList, ".zshenv".toList, ".config/fish".toList,
      ".oh-my-zsh".toList, ".p10k.zsh".toList]),
    ("git".toList, [".gitconfig".toList, ".gitignore_global".toList, ".config/git".toList]),
    ("editor".toList,
     [".vimrc".toList, ".config/nvim".toList, ".config/helix".toList, ".config/zed".toList,
      ".emacs".toList, ".emacs.d".toList, ".config/Code".toList]),
    ("ssh".toList, [".ssh/".toList]),
    ("gpg".toList, [".gnupg/".toList]),
    ("python".toList,
     [".config/pip".toList, ".config/ruff".toList, ".config/mypy".toList,
      ".jupyter".toList, ".condarc".toList]),
    ("node".toList, [".npmrc".toList, ".yarnrc".toList, ".config/yarn".toList, ".bunfig.toml".toList]),
    ("rust".toList, [".cargo/".toList, ".rustup/settings.toml".toList]),
    ("go".toList, [".config/go/".toList]),
    ("cloud".toList,
     [".aws/".toList, ".config/gcloud".toList, ".azure/".toList, ".s3cfg".toList, ".yandex".toList]),
    ("docker".toList, [".docker/config.json".toList, ".config/podman".toList]),
    ("terminal".toList,
     [".tmux.conf".toList, ".config/wezterm".toList, ".config/alacritty".toList,
      ".config/kitty".toList, ".config/starship.toml".toList, ".config/zellij".toList]),
    ("desktop".toList,
     ["Library/Application Support".toList, "Library/Preferences".toList,
      ".local/share".toList, ".config".toList]),
    ("ai".toList, [".claude".toList, ".claude.json".toList, ".codex".toList, ".ai".toList]) ]

/-- Go map lookup in the Categories table. -/
def lookupCategory (name : List Char) : Option (List (List Char)) :=
  (Categories.find? (fun kv => kv.1 = name)).map (fun kv => kv.2)

/-- ASCII lowering, the effect of Go strings.ToLower on the inputs that
can reach the category table. -/
def toLowerStr (s : List Char) : List Char := s.map Char.toLower

/-- Restore.matchesCategory: strip a leading dot-slash or slash from the
path, then test whether it starts with any prefix registered under any
selected category (prefixes also get a leading dot-slash stripped);
unknown category names contribute nothing. -/
def matchesCategory (cats : List (List Char)) (path0 : List Char) : Bool :=
  let path1 := trimPre path0 "./".toList
  let path := trimPre path1 "/".toList
  cats.any fun cat =>
    match lookupCategory (toLowerStr cat) with
    | none => false
    | some prefixes =>
      prefixes.any fun pre0 =>
        let pre := trimPre pre0 "./".toList
        pre.isPrefixOf path

/-! ## Archive entries and the Archive Extractor (Restore.extractArchive)

A tar archive is a list of entries.  For a well-formed archive (one
produced by a tar writer) a regular entry's content has exactly
header.Size bytes; the extractor's control flow only consults the size
(the quota comparisons use header.Size, and for a well-formed stream the
per-file check of extractFile fails exactly when the size exceeds the
ceiling), so entries carry both fields and well-formedness is an explicit
hypothesis where content matters. -/

/-- Tar entry kinds handled by the extractor switch; other covers every
type flag the switch ignores. -/
inductive TypeFlag
  | reg
  | dir
  | symlink
  | other
  deriving DecidableEq

/-- An archive entry: tar header fields plus the content byte stream. -/
structure Entry where
  name : List Char
  typeflag : TypeFlag
  mode : Nat
  size : Nat
  linkname : List Char
  content : List Nat
  deriving DecidableEq

/-- A well-formed (writer-produced) entry carries exactly size bytes. -/
def Entry.wf (e : Entry) : Prop := e.content.length = e.size

/-- Filesystem mutations performed by the extractor, in program order.
filePartial records the truncated file left behind when extractFile hits
the per-file ceiling (the file was created and the first ceiling-many
bytes were written before the error). -/
inductive FsWrite
  | mkdirParents (path : List Char)
  | mkdirAll (path : List Char) (mode : Nat)
  | fileWrite (path : List Char) (content : List Nat) (mode : Nat)
  | filePartial (path : List Char) (mode : Nat)
  | removeExisting (path : List Char)
  | symlinkCreate (linkTarget path : List Char)
  deriving DecidableEq

/-- The restore configuration the extractor reads: home directory, the
working directory consulted by filepath.Abs, the selected categories and
the dry-run flag. -/
structure ExtractCfg where
  homeDir : List Char
  cwd : List Char
  categories : List (List Char)
  dryRun : Bool

/-- Loop state of extractArchive: the returned file count, the running
total of extracted bytes, and the trace of filesystem mutations. -/
structure ExtState where
  count : Nat
  totalExtracted : Nat
  writes : List FsWrite
  deriving DecidableEq

/-- One iteration of the extractArchive loop.  error s models the single
hard abort (the cumulative quota) returning the state reached so far; all
other failures skip the entry.  Faithful ordering: name safety, category
filter, within-base, dry-run counting, cumulative quota, parent-directory
creation, then the per-type materialization (with the symlink target
checks evaluated only after the parent directories were made). -/
def extractEntry (cfg : ExtractCfg) (s : ExtState) (e : Entry) : Except ExtState ExtState :=
  if !isSafePath e.name then .ok s
  else if !cfg.categories.isEmpty && !matchesCategory cfg.categories e.name then .ok s
  else
    let targetPath := goJoin2 cfg.homeDir e.name
    if !isPathWithinBase cfg.cwd targetPath cfg.homeDir then .ok s
    else if cfg.dryRun then .ok { s with count := s.count + 1 }
    else if decide (s.totalExtracted + e.size > maxExtractTotalSize) then .error s
    else
      let s1 := { s with writes := s.writes ++ [.mkdirParents (goDir targetPath)] }
      match e.typeflag with
      | .dir => .ok { s1 with writes := s1.writes ++ [.mkdirAll targetPath (Nat.land e.mode 511)] }
      | .reg =>
        if decide (e.size > maxExtractFileSize) then
          .ok { s1 with writes := s1.writes ++ [.filePartial targetPath (Nat.land e.mode 511)] }
        else
          .ok { count := s1.count + 1,
                totalExtracted := s1.totalExtracted + e.size,
                writes := s1.writes ++ [.fileWrite targetPath e.content (Nat.land e.mode 511)] }
      | .symlink =>
        if !isSafePath e.linkname then .ok s1
        else
          let resolvedTarget := goJoin2 (goDir targetPath) e.linkname
          if !isPathWithinBase cfg.cwd resolvedTarget cfg.homeDir then .ok s1
          else .ok { s1 with
                     writes := s1.writes ++ [.removeExisting targetPath,
                                             .symlinkCreate e.linkname targetPath] }
      | .other => .ok s1

/-- The extractArchive loop from a given state; the Bool records whether
the cumulative-quota abort fired. -/
def extractFrom (cfg : ExtractCfg) (s : ExtState) : List Entry → ExtState × Bool
  | [] => (s, false)
  | e :: rest =>
    match extractEntry cfg s e with
    | .ok s' => extractFrom cfg s' rest
    | .error s' => (s', true)

/-- Restore.extractArchive on a decoded archive: returns the final loop
state (count, running total, mutation trace) and the abort flag. -/
def extractArchive (cfg : ExtractCfg) (entries : List Entry) : ExtState × Bool :=
  extractFrom cfg { count := 0, totalExtracted := 0, writes := [] } entries

/-! ## Streaming Archive Writer (AddFileToTar / Backup.writeArchive) -/

/-- A source regular file handed to the archive writer: its home-relative
slash-separated path, its stat mode and its content bytes. -/
structure SrcFile where
  relPath : List Char
  mode : Nat
  content : List Nat
  deriving DecidableEq

/-- AddFileToTar for a regular file: tar.FileInfoHeader copies the 9
permission bits and the stat size into the header, and the entry name is
the slash-normalized relative path (already slash-separated here). -/
def addFileToTar (f : SrcFile) : Entry :=
  { name := f.relPath,
    typeflag := .reg,
    mode := Nat.land f.mode 511,
    size := f.content.length,
    linkname := [],
    content := f.content }

/-- Backup.writeArchive over a list of regular files: each file is added
in order (per-file read errors, absent in this pure model, would be
skipped). -/
def writeArchive (files : List SrcFile) : List Entry :=
  files.map addFileToTar

/-! ## Safety-Backup Generator and restore driver
(Restore.createSafetyBackup / Restore.Run, internal/restore/restore.go) -/

/-- sensitivePatterns: path prefixes indicating sensitive files. -/
def sensitivePatterns : List (List Char) :=
  [".ssh".toList, ".gnupg".toList, ".aws".toList, ".config/gcloud".toList,
   ".azure".toList, ".kube".toList, ".terraform".toList, ".docker".toList,
   ".pypirc".toList]

/-- Restore.containsSensitiveFiles: some file starts with a sensitive
pattern. -/
def containsSensitiveFiles (files : List (List Char)) : Bool :=
  files.any fun file => sensitivePatterns.any fun pat => pat.isPrefixOf file

/-- Restore.filterSensitiveFiles: drop files starting with a sensitive
pattern. -/
def filterSensitiveFiles (files : List (List Char)) : List (List Char) :=
  files.filter fun file => !(sensitivePatterns.any fun pat => pat.isPrefixOf file)

/-- What the interactive prompt reads from standard input: a line, or end
of input. -/
inductive PromptInput
  | line (s : List Char)
  | eof
  deriving DecidableEq

/-- The error outcomes of the safety-backup generator. -/
inductive SbError
  | cancelledNoInput
  | cancelledByUser
  | invalidChoice (s : List Char)
  | writeFailed
  deriving DecidableEq

/-- Restore.promptForSensitiveBackup: choice 1 keeps all files, choice 2
filters the sensitive subset, choice 3 or an empty line cancels, end of
input cancels, anything else is an invalid choice. -/
def promptForSensitiveBackup (inp : PromptInput) (files : List (List Char)) :
    Except SbError (List (List Char)) :=
  match inp with
  | .eof => .error .cancelledNoInput
  | .line raw =>
    let choice := trimSpace raw
    if choice = ['1'] then .ok files
    else if choice = ['2'] then .ok (filterSensitiveFiles files)
    else if choice = ['3'] || choice = [] then .error .cancelledByUser
    else .error (.invalidChoice choice)

/-- Restore.findFilesToBackup: the names of non-directory, path-safe,
category-passing archive entries whose joined target already exists on
disk. -/
def findFilesToBackup (cfg : ExtractCfg) (existsOnDisk : List Char → Bool)
    (entries : List Entry) : List (List Char) :=
  entries.foldl
    (fun acc e =>
      if e.typeflag = .dir || !isSafePath e.name then acc
      else if !cfg.categories.isEmpty && !matchesCategory cfg.categories e.name then acc
      else if existsOnDisk (goJoin2 cfg.homeDir e.name) then acc ++ [e.name]
      else acc)
    []

/-- Encryption methods (internal/crypto). -/
inductive Method
  | age
  | gpg
  | noEnc
  deriving DecidableEq

/-- string(method), the file-name suffix of an encryption method. -/
def methodSuffix : Method → List Char
  | .age => "age".toList
  | .gpg => "gpg".toList
  | .noEnc => []

/-- crypto.DetectMethod: recognize the encryption method from the archive
name's extension. -/
def detectMethod (p : List Char) : Method :=
  if ".age".toList.isSuffixOf p then .age
  else if ".gpg".toList.isSuffixOf p then .gpg
  else .noEnc

/-- Disk-visible effects of the safety-backup generator.  encStream is the
pipe-to-encryptor path: the archive writer streams into the encryptor,
which writes ciphertext at the given path, so no plaintext reaches disk;
plainWrite is an unencrypted tar.gz written directly to the given path. -/
inductive SbEffect
  | mkdirPreRestore (dir : List Char)
  | encStream (path : List Char)
  | removeFile (path : List Char)
  | plainWrite (path : List Char)
  deriving DecidableEq

/-- SbEffect discriminator for the plaintext disk write. -/
def SbEffect.isPlainWrite : SbEffect → Bool
  | .plainWrite _ => true
  | _ => false

/-- Environment of the safety-backup generator: configuration plus the
outcomes of its external collaborators (prompt input, whether encryption
is configured, whether creating the encryptor, the encryption run and the
archive writer succeed). -/
structure SbEnv where
  backupDir : List Char
  timestamp : List Char
  canEncrypt : Bool
  promptInput : PromptInput
  encCreateOk : Bool
  encryptOk : Bool
  writerOk : Bool

/-- The plain safety-archive file name, pre-restore-TIMESTAMP.tar.gz. -/
def safetyPlainName (ts : List Char) : List Char :=
  "pre-restore-".toList ++ ts ++ ".tar.gz".toList

/-- The encrypted safety-archive file name, with the method suffix. -/
def safetyEncName (ts : List Char) (m : Method) : List Char :=
  safetyPlainName ts ++ '.' :: methodSuffix m

/-- Restore.createSafetyBackup: scan the source archive for files to back
up, prompt when the set is sensitive and encryption is unavailable, then
write the safety archive — through the pipe-to-encryptor path when the
original archive was encrypted, falling back to an unencrypted on-disk
archive when encryptor creation or the encryption run fails.  Returns the
safety archive path (empty for none) or an error, together with the trace
of disk effects. -/
def createSafetyBackup (env : SbEnv) (cfg : ExtractCfg) (existsOnDisk : List Char → Bool)
    (entries : List Entry) (originalArchive : List Char) :
    Except SbError (List Char) × List SbEffect :=
  let files0 := findFilesToBackup cfg existsOnDisk entries
  if files0.isEmpty then (.ok [], [])
  else
    let promptRes : Except SbError (List (List Char)) :=
      if containsSensitiveFiles files0 && !env.canEncrypt then
        promptForSensitiveBackup env.promptInput files0
      else .ok files0
    match promptRes with
    | .error e => (.error e, [])
    | .ok files =>
      if files.isEmpty then (.ok [], [])
      else
        let preRestoreDir := goJoin2 env.backupDir "pre-restore".toList
        let effs0 := [SbEffect.mkdirPreRestore preRestoreDir]
        let plainPath := goJoin2 preRestoreDir (safetyPlainName env.timestamp)
        let plainTail : Except SbError (List Char) × List SbEffect :=
          if env.writerOk then (.ok plainPath, [SbEffect.plainWrite plainPath])
          else (.error .writeFailed, [SbEffect.plainWrite plainPath])
        let m := detectMethod originalArchive
        if m ≠ .noEnc then
          if !env.encCreateOk then
            (plainTail.1, effs0 ++ plainTail.2)
          else
            let encPath := goJoin2 preRestoreDir (safetyEncName env.timestamp m)
            if env.encryptOk then
              if env.writerOk then (.ok encPath, effs0 ++ [SbEffect.encStream encPath])
              else (.error .writeFailed,
                    effs0 ++ [SbEffect.encStream encPath, SbEffect.removeFile encPath])
            else
              (plainTail.1, effs0 ++ [SbEffect.removeFile encPath] ++ plainTail.2)
        else
          (plainTail.1, effs0 ++ plainTail.2)

/-- The restore options consulted by Restore.Run. -/
structure RunOpts where
  dryRun : Bool
  noBackup : Bool
  categories : List (List Char)

/-- The fatal outcomes Restore.Run reports through its result. -/
inductive RunError
  | archiveNotFound
  | decryptFailed
  | extractFailed
  deriving DecidableEq

/-- The fields of metadata.RestoreResult that the claims are about. -/
structure RunResult where
  success : Bool
  runError : Option RunError
  safetyBackup : List Char
  deriving DecidableEq

/-- Restore.Run after archive lookup and decryption: run the safety-backup
generator unless disabled or dry-running — a safety-backup error is only
warned about, the restore proceeds — then extract, and report success when
the extraction did not abort.  Returns the result, the safety-backup
effects and the extraction state. -/
def restoreRun (env : SbEnv) (opts : RunOpts) (homeDir cwd : List Char)
    (existsOnDisk : List Char → Bool) (entries : List Entry)
    (archivePath : List Char) (archiveExists decryptOk : Bool) :
    RunResult × List SbEffect × ExtState :=
  let cfg : ExtractCfg :=
    { homeDir := homeDir, cwd := cwd, categories := opts.categories, dryRun := opts.dryRun }
  let empt : ExtState := { count := 0, totalExtracted := 0, writes := [] }
  if !archiveExists then
    ({ success := false, runError := some .archiveNotFound, safetyBackup := [] }, [], empt)
  else
    let needsDecrypt :=
      ".age".toList.isSuffixOf archivePath || ".gpg".toList.isSuffixOf archivePath
    if needsDecrypt && !decryptOk then
      ({ success := false, runError := some .decryptFailed, safetyBackup := [] }, [], empt)
    else
      let sb : Except SbError (List Char) × List SbEffect :=
        if !opts.noBackup && !opts.dryRun then
          createSafetyBackup env cfg existsOnDisk entries archivePath
        else (.ok [], [])
      let sbPath := match sb.1 with | .ok p => p | .error _ => []
      let ex := extractArchive cfg entries
      if ex.2 then
        ({ success := false, runError := some .extractFailed, safetyBackup := sbPath },
         sb.2, ex.1)
      else
        ({ success := true, runError := none, safetyBackup := sbPath }, sb.2, ex.1)

/-! ## File Collector (Backup.collectFiles, internal/backup) -/

/-- A descriptor produced by Backup.collectItem: full path, home-relative
path and stat size (collectItem never sets the sensitive flag). -/
structure RawFile where
  fullPath : List Char
  relPath : List Char
  size : Int
  deriving DecidableEq

/-- backup.FileInfo as used by collectFiles. -/
structure CFile where
  fullPath : List Char
  relPath : List Char
  size : Int
  sensitive : Bool
  deriving DecidableEq

/-- The metadata.Stats counters collectFiles maintains (FilesExcluded is
updated inside collectItem, outside this model). -/
structure CStats where
  filesBackedUp : Nat
  filesSkipped : Nat
  sensitiveFiles : Nat
  totalSize : Int
  deriving DecidableEq

/-- Sum of the stat sizes of a collectItem result. -/
def sumSizes (l : List RawFile) : Int :=
  (l.map fun f => f.size).sum

/-- Lift a collectItem descriptor into a FileInfo with the given sensitive
flag. -/
def toCFile (sens : Bool) (f : RawFile) : CFile :=
  { fullPath := f.fullPath, relPath := f.relPath, size := f.size, sensitive := sens }

/-- One iteration of the regular collection pass: a collectItem error is
counted as skipped, a success appends the descriptors (sensitive stays
false) and accumulates their sizes.  The accumulator is
(files, skipped, totalSize). -/
def regStep (collectItem : List Char → Option (List RawFile))
    (acc : List CFile × Nat × Int) (item : List Char) : List CFile × Nat × Int :=
  match collectItem item with
  | none => (acc.1, acc.2.1 + 1, acc.2.2)
  | some collected =>
    (acc.1 ++ collected.map (toCFile false), acc.2.1, acc.2.2 + sumSizes collected)

/-- The regular pass of collectFiles over the configured items,
returning (files, skipped, totalSize). -/
def collectRegular (collectItem : List Char → Option (List RawFile))
    (items : List (List Char)) : List CFile × Nat × Int :=
  items.foldl (regStep collectItem) ([], 0, 0)

/-- One iteration of the sensitive collection pass: every collected
descriptor is marked sensitive, sizes accumulate, and the sensitive-file
counter grows by the number collected (errors here are only logged, not
counted as skipped).  The accumulator is (files, sensitiveFiles,
totalSize). -/
def sensStep (collectItem : List Char → Option (List RawFile))
    (acc : List CFile × Nat × Int) (item : List Char) : List CFile × Nat × Int :=
  match collectItem item with
  | none => acc
  | some collected =>
    (acc.1 ++ collected.map (toCFile true), acc.2.1 + collected.length,
     acc.2.2 + sumSizes collected)

/-- The sensitive pass of collectFiles over the sensitive-item list,
returning (files, sensitiveFiles, totalSize). -/
def collectSensitive (collectItem : List Char → Option (List RawFile))
    (sensItems : List (List Char)) : List CFile × Nat × Int :=
  sensItems.foldl (sensStep collectItem) ([], 0, 0)

/-- Backup.collectFiles: the regular pass over the configured items, then —
only when both the includeSecrets argument and the IncludeSecrets option
hold — the sensitive pass over the sensitive-item list; the stats snapshot
records the file count, skip count, sensitive count and total size. -/
def collectFiles (collectItem : List Char → Option (List RawFile))
    (items sensItems : List (List Char)) (includeSecrets optsIncludeSecrets : Bool) :
    List CFile × CStats :=
  let reg := collectRegular collectItem items
  let sens :=
    if includeSecrets && optsIncludeSecrets then collectSensitive collectItem sensItems
    else ([], 0, 0)
  let files := reg.1 ++ sens.1
  (files,
   { filesBackedUp := files.length, filesSkipped := reg.2.1,
     sensitiveFiles := sens.2.1, totalSize := reg.2.2 + sens.2.2 })

/-! ## Shared lemmas -/

/-- takeWhile consumes an all-true block up to a false head. -/
theorem takeWhile_block (P : Char → Bool) :
    ∀ (l1 l2 : List Char), (∀ c ∈ l1, P c = true) →
      (∀ c l', l2 = c :: l' → P c = false) →
      (l1 ++ l2).takeWhile P = l1 := by
  intro l1
  induction l1 with
  | nil =>
    intro l2 _ h2
    cases l2 with
    | nil => rfl
    | cons c l' => simp [List.takeWhile_cons, h2 c l' rfl]
  | cons a t ih =>
    intro l2 h1 h2
    have ha : P a = true := h1 a (by simp)
    simp only [List.cons_append, List.takeWhile_cons, ha]
    simp [ih l2 (fun c hc => h1 c (by simp [hc])) h2]

/-- dropWhile is the identity when the head fails the predicate. -/
theorem dropWhile_head_false (P : Char → Bool) (l : List Char)
    (h : ∀ c l', l = c :: l' → P c = false) : l.dropWhile P = l := by
  cases l with
  | nil => rfl
  | cons c l' => simp [List.dropWhile_cons, h c l' rfl]

/-- goBase of a path ending in a nonempty slash-free element is that
element. -/
theorem goBase_last_elem (d s : List Char) (hs : s ≠ [])
    (hfree : ∀ c ∈ s, c ≠ '/') : goBase (d ++ '/' :: s) = s := by
  have hne : d ++ '/' :: s ≠ [] := by simp
  have hrev : (d ++ '/' :: s).reverse = s.reverse ++ '/' :: d.reverse := by
    simp
  obtain ⟨a, t, hat⟩ : ∃ a t, s.reverse = a :: t := by
    cases hsr : s.reverse with
    | nil => exact absurd (by simpa using congrArg List.reverse hsr) hs
    | cons a t => exact ⟨a, t, rfl⟩
  have hmem : ∀ c ∈ s.reverse, c ≠ '/' := by
    intro c hc
    exact hfree c (by simpa using hc)
  have hdrop :
      ((d ++ '/' :: s).reverse.dropWhile (fun c => decide (c = '/'))) =
        (d ++ '/' :: s).reverse := by
    apply dropWhile_head_false
    intro c l' hcl
    rw [hrev, hat] at hcl
    cases hcl
    have : a ≠ '/' := hmem a (by simp [hat])
    simpa using this
  have htake :
      ((d ++ '/' :: s).reverse.takeWhile (fun c => decide (¬ c = '/'))) = s.reverse := by
    rw [hrev]
    apply takeWhile_block
    · intro c hc
      simpa using hmem c hc
    · intro c l' hcl
      cases hcl
      simp
  unfold goBase
  rw [if_neg hne]
  simp only [hdrop, List.reverse_reverse, htake]
  exact if_neg (by simpa using hs)

namespace Claims

/-- C6.  isSafePath (the spec's isSafeRelativePath) returns false for
every string that contains a dotdot path component, contains a NUL byte,
has a leading slash, or has a leading tilde; it returns true for the empty
string and for the single dot. -/
theorem c6_isSafePath_rejects_and_accepts :
    (∀ p : List Char,
        ((splitSlash p).contains ['.', '.'] = true ∨
         p.contains '\x00' = true ∨
         (∃ t, p = '/' :: t) ∨
         (∃ t, p = '~' :: t)) →
        isSafePath p = false) ∧
    isSafePath [] = true ∧ isSafePath ['.'] = true := by
  refine ⟨?_, by decide, by decide⟩
  intro p h
  unfold isSafePath
  split_ifs with h1 h2 h3 h4 h5 h6
  all_goals try rfl
  all_goals exfalso
  all_goals subst_vars
  all_goals rcases h with hdd | hnul | ⟨t, ht⟩ | ⟨t, ht⟩
  · exact absurd hdd (by decide)
  · exact absurd hnul (by decide)
  · exact List.noConfusion ht
  · exact List.noConfusion ht
  · exact h6 hdd
  · exact h2 hnul
  · subst ht; exact h3 rfl
  · subst ht
    apply h4
    simp [List.isPrefixOf]

/-- C6 witness: concrete applications of the rejection half. -/
theorem c6_witness :
    isSafePath "../etc/passwd".toList = false ∧
    isSafePath "foo/../bar".toList = false ∧
    isSafePath ['\x00'] = false ∧
    isSafePath "/etc/passwd".toList = false ∧
    isSafePath "~/x".toList = false :=
  ⟨c6_isSafePath_rejects_and_accepts.1 _ (Or.inl (by decide)),
   c6_isSafePath_rejects_and_accepts.1 _ (Or.inl (by decide)),
   c6_isSafePath_rejects_and_accepts.1 _ (Or.inr (Or.inl (by decide))),
   c6_isSafePath_rejects_and_accepts.1 _
     (Or.inr (Or.inr (Or.inl ⟨"etc/passwd".toList, by decide⟩))),
   c6_isSafePath_rejects_and_accepts.1 _
     (Or.inr (Or.inr (Or.inr ⟨"/x".toList, by decide⟩)))⟩

/-- C8.  isExcluded(relativePath, patterns) is true iff some pattern
matches under one of the four rules (glob on the base name, glob on the
full relative path, exact equality with the base name, or a
component-boundary match); pattern dot-git excludes paths whose base name
or interior component is exactly dot-git but not dot-gitconfig, and
pattern star-dot-log excludes a file named debug.log in any directory. -/
theorem c8_isExcluded_spec :
    (∀ (patterns : List (List Char)) (path : List Char),
        isExcluded patterns path = true ↔
          ∃ pattern ∈ patterns,
            matchedOk pattern (goBase path) = true ∨
            matchedOk pattern path = true ∨
            goBase path = pattern ∨
            ((pattern ++ ['/']).isPrefixOf path = true ∨
              (['/'] ++ pattern).isSuffixOf path = true ∨
              hasSub path ('/' :: pattern ++ ['/']) = true)) ∧
    (∀ path : List Char, goBase path = ".git".toList →
        isExcluded [".git".toList] path = true) ∧
    (∀ path : List Char, hasSub path "/.git/".toList = true →
        isExcluded [".git".toList] path = true) ∧
    isExcluded [".git".toList] ".gitconfig".toList = false ∧
    (∀ d : List Char, isExcluded ["*.log".toList] (d ++ "/debug.log".toList) = true) := by
  refine ⟨?_, ?_, ?_, by decide, ?_⟩
  · intro patterns path
    simp only [isExcluded, List.any_eq_true, Bool.or_eq_true, decide_eq_true_eq]
    constructor
    · rintro ⟨pat, hmem, hrule⟩
      exact ⟨pat, hmem, by tauto⟩
    · rintro ⟨pat, hmem, hrule⟩
      exact ⟨pat, hmem, by tauto⟩
  · intro path h
    simp [isExcluded, h]
  · intro path h
    have h' : hasSub path ['/', '.', 'g', 'i', 't', '/'] = true := h
    simp [isExcluded, h']
  · intro d
    have hbase : goBase (d ++ ['/', 'd', 'e', 'b', 'u', 'g', '.', 'l', 'o', 'g']) =
        ['d', 'e', 'b', 'u', 'g', '.', 'l', 'o', 'g'] :=
      goBase_last_elem d ['d', 'e', 'b', 'u', 'g', '.', 'l', 'o', 'g'] (by decide) (by decide)
    simp only [isExcluded, List.any_cons, List.any_nil]
    simp [hbase]
    exact Or.inl (Or.inl (Or.inl (by decide)))

/-- C8 witness: concrete applications of the quantified parts. -/
theorem c8_witness :
    isExcluded [".git".toList] "proj/.git".toList = true ∧
    isExcluded [".git".toList] "a/.git/objects".toList = true ∧
    isExcluded ["*.log".toList] "deep/dir/debug.log".toList = true :=
  ⟨c8_isExcluded_spec.2.1 _ (by decide),
   c8_isExcluded_spec.2.2.1 _ (by decide),
   c8_isExcluded_spec.2.2.2.2 "deep/dir".toList⟩

end Claims

/-! ## Collector lemmas -/

/-- Total size of a FileInfo list. -/
def cfilesSize (l : List CFile) : Int :=
  (l.map fun f => f.size).sum

theorem cfilesSize_append (a b : List CFile) :
    cfilesSize (a ++ b) = cfilesSize a + cfilesSize b := by
  simp [cfilesSize]

theorem cfilesSize_mapToCFile (b : Bool) (l : List RawFile) :
    cfilesSize (l.map (toCFile b)) = sumSizes l := by
  simp only [cfilesSize, sumSizes, List.map_map]
  congr 1

/-- The regular pass never marks a descriptor sensitive. -/
theorem regFold_not_sensitive (ci : List Char → Option (List RawFile)) :
    ∀ (items : List (List Char)) (acc : List CFile × Nat × Int),
      (∀ f ∈ acc.1, f.sensitive = false) →
      ∀ f ∈ (items.foldl (regStep ci) acc).1, f.sensitive = false := by
  intro items
  induction items with
  | nil => intro acc hacc; simpa using hacc
  | cons item rest ih =>
    intro acc hacc
    simp only [List.foldl_cons]
    apply ih
    unfold regStep
    cases ci item with
    | none => simpa using hacc
    | some collected =>
      intro f hf
      rcases List.mem_append.mp hf with hf | hf
      · exact hacc f hf
      · rcases List.mem_map.mp hf with ⟨g, _, rfl⟩
        rfl

/-- The sensitive pass marks every descriptor it emits sensitive. -/
theorem sensFold_sensitive (ci : List Char → Option (List RawFile)) :
    ∀ (items : List (List Char)) (acc : List CFile × Nat × Int),
      (∀ f ∈ acc.1, f.sensitive = true) →
      ∀ f ∈ (items.foldl (sensStep ci) acc).1, f.sensitive = true := by
  intro items
  induction items with
  | nil => intro acc hacc; simpa using hacc
  | cons item rest ih =>
    intro acc hacc
    simp only [List.foldl_cons]
    apply ih
    unfold sensStep
    cases ci item with
    | none => simpa using hacc
    | some collected =>
      intro f hf
      rcases List.mem_append.mp hf with hf | hf
      · exact hacc f hf
      · rcases List.mem_map.mp hf with ⟨g, _, rfl⟩
        rfl

/-- The regular pass keeps its running total equal to the summed sizes of
the emitted descriptors. -/
theorem regFold_size (ci : List Char → Option (List RawFile)) :
    ∀ (items : List (List Char)) (acc : List CFile × Nat × Int),
      acc.2.2 = cfilesSize acc.1 →
      (items.foldl (regStep ci) acc).2.2 = cfilesSize (items.foldl (regStep ci) acc).1 := by
  intro items
  induction items with
  | nil => intro acc hacc; simpa using hacc
  | cons item rest ih =>
    intro acc hacc
    simp only [List.foldl_cons]
    apply ih
    unfold regStep
    cases ci item with
    | none => simpa using hacc
    | some collected =>
      simp [cfilesSize_append, cfilesSize_mapToCFile, hacc]

/-- The sensitive pass keeps its running total equal to the summed sizes
of the emitted descriptors. -/
theorem sensFold_size (ci : List Char → Option (List RawFile)) :
    ∀ (items : List (List Char)) (acc : List CFile × Nat × Int),
      acc.2.2 = cfilesSize acc.1 →
      (items.foldl (sensStep ci) acc).2.2 = cfilesSize (items.foldl (sensStep ci) acc).1 := by
  intro items
  induction items with
  | nil => intro acc hacc; simpa using hacc
  | cons item rest ih =>
    intro acc hacc
    simp only [List.foldl_cons]
    apply ih
    unfold sensStep
    cases ci item with
    | none => simpa using hacc
    | some collected =>
      simp [cfilesSize_append, cfilesSize_mapToCFile, hacc]

namespace Claims

/-- C9.  With includeSensitive false the collection pass reads nothing
from the sensitive-item list (the result is the same whatever that list
holds) and no returned descriptor is marked sensitive; when sensitive
items are collected, the result extends the regular collection with
descriptors that are all marked sensitive; and the reported total size is
the sum of all descriptor sizes, regular and sensitive combined. -/
theorem c9_collect_two_tier :
    ∀ (ci : List Char → Option (List RawFile)) (items sensItems : List (List Char)) (o : Bool),
      (∀ f ∈ (collectFiles ci items sensItems false o).1, f.sensitive = false) ∧
      collectFiles ci items sensItems false o = collectFiles ci items [] false o ∧
      (∃ sensFiles,
          (collectFiles ci items sensItems true true).1 =
            (collectFiles ci items [] false false).1 ++ sensFiles ∧
          ∀ f ∈ sensFiles, f.sensitive = true) ∧
      (∀ inc o2 : Bool,
          (collectFiles ci items sensItems inc o2).2.totalSize =
            cfilesSize (collectFiles ci items sensItems inc o2).1) := by
  intro ci items sensItems o
  refine ⟨?_, rfl, ?_, ?_⟩
  · intro f hf
    have hf' : f ∈ (collectRegular ci items).1 := by
      simpa [collectFiles] using hf
    exact regFold_not_sensitive ci items ([], 0, 0) (by simp) f hf'
  · refine ⟨(collectSensitive ci sensItems).1, ?_, ?_⟩
    · simp [collectFiles]
    · exact sensFold_sensitive ci sensItems ([], 0, 0) (by simp)
  · intro inc o2
    have hreg := regFold_size ci items ([], 0, 0) (by simp [cfilesSize])
    by_cases hio : (inc && o2) = true
    · have hsens := sensFold_size ci sensItems ([], 0, 0) (by simp [cfilesSize])
      simp [collectFiles, hio, collectRegular, collectSensitive,
        cfilesSize_append] at *
      omega
    · simp [collectFiles, hio, collectRegular, collectSensitive] at *
      omega

/-- C9 witness: the theorem applied at a concrete collector run. -/
theorem c9_witness :
    (∀ f ∈ (collectFiles
        (fun item => if item = ['a'] then some [⟨['h'], ['a'], 3⟩] else none)
        [['a']] [['s']] false true).1, f.sensitive = false) ∧
    (collectFiles
        (fun item => if item = ['a'] then some [⟨['h'], ['a'], 3⟩] else none)
        [['a']] [['s']] false true).2.totalSize = 3 := by
  have h := c9_collect_two_tier
    (fun item => if item = ['a'] then some [⟨['h'], ['a'], 3⟩] else none)
    [['a']] [['s']] true
  refine ⟨h.1, ?_⟩
  have h4 := h.2.2.2 false true
  simpa using h4

end Claims

/-! ## Extractor lemmas -/

/-- FsWrite discriminator for successful regular-file materializations. -/
def FsWrite.isFileWrite : FsWrite → Bool
  | .fileWrite _ _ _ => true
  | _ => false

/-- Number of successful regular-file materializations in a trace. -/
def countFileWrites (ws : List FsWrite) : Nat :=
  (ws.filter FsWrite.isFileWrite).length

theorem countFileWrites_append (a b : List FsWrite) :
    countFileWrites (a ++ b) = countFileWrites a + countFileWrites b := by
  simp [countFileWrites, List.filter_append]

/-- The three per-entry admission checks of the extractor, in source
order: path safety of the name, the category filter, and the within-base
check on the joined target. -/
def passesChecks (cfg : ExtractCfg) (e : Entry) : Bool :=
  isSafePath e.name &&
  (cfg.categories.isEmpty || matchesCategory cfg.categories e.name) &&
  isPathWithinBase cfg.cwd (goJoin2 cfg.homeDir e.name) cfg.homeDir

/-- In non-dry-run mode every loop step preserves the invariant that the
count equals the number of successful file materializations in the
trace. -/
theorem extractEntry_count (cfg : ExtractCfg) (hdry : cfg.dryRun = false)
    (s : ExtState) (e : Entry) (hs : s.count = countFileWrites s.writes) :
    ∀ s', (extractEntry cfg s e = .ok s' ∨ extractEntry cfg s e = .error s') →
      s'.count = countFileWrites s'.writes := by
  intro s' h
  rcases h with h | h <;>
  · unfold extractEntry at h
    rw [hdry] at h
    all_goals
      repeat
        first
          | exact Except.noConfusion h
          | (injection h with h; subst h;
             simp_all [countFileWrites_append, countFileWrites, FsWrite.isFileWrite])
          | split at h
          | omega
          | simp_all

/-- The count invariant carried through the whole extraction loop. -/
theorem extractFrom_count (cfg : ExtractCfg) (hdry : cfg.dryRun = false) :
    ∀ (entries : List Entry) (s : ExtState), s.count = countFileWrites s.writes →
      (extractFrom cfg s entries).1.count =
        countFileWrites (extractFrom cfg s entries).1.writes := by
  intro entries
  induction entries with
  | nil => intro s hs; simpa [extractFrom] using hs
  | cons e rest ih =>
    intro s hs
    have hstep := extractEntry_count cfg hdry s e hs
    unfold extractFrom
    cases hna : extractEntry cfg s e with
    | ok s1 => simp only [hna]; exact ih s1 (hstep s1 (Or.inl hna))
    | error s1 => simp only [hna]; exact hstep s1 (Or.inr hna)

/-- In dry-run mode an entry only bumps the count when it passes the
three admission checks; nothing else changes and nothing aborts. -/
theorem extractEntry_dry (cfg : ExtractCfg) (hdry : cfg.dryRun = true)
    (s : ExtState) (e : Entry) :
    extractEntry cfg s e =
      .ok (if passesChecks cfg e then { s with count := s.count + 1 } else s) := by
  unfold extractEntry passesChecks
  by_cases h1 : isSafePath e.name
  · by_cases h2 : (!cfg.categories.isEmpty && !matchesCategory cfg.categories e.name) = true
    · have h2' : (cfg.categories.isEmpty || matchesCategory cfg.categories e.name) = false := by
        simp only [Bool.and_eq_true, Bool.not_eq_eq_eq_not, Bool.not_true] at h2
        simp [h2.1, h2.2]
      simp [h1, h2, h2']
    · have h2' : (cfg.categories.isEmpty || matchesCategory cfg.categories e.name) = true := by
        simp only [Bool.and_eq_true, Bool.not_eq_eq_eq_not, Bool.not_true, not_and] at h2
        cases hc : cfg.categories.isEmpty with
        | true => simp [hc]
        | false =>
          cases hm : matchesCategory cfg.categories e.name with
          | true => simp [hm]
          | false => exact absurd hm (h2 hc)
      by_cases h3 : isPathWithinBase cfg.cwd (goJoin2 cfg.homeDir e.name) cfg.homeDir
      · simp [h1, h2, h2', h3, hdry]
      · simp [h1, h2, h2', h3]
  · simp [h1]

/-- Dry-run extraction from any state: the count grows by the number of
admissible entries, nothing is written, nothing aborts. -/
theorem extractFrom_dry (cfg : ExtractCfg) (hdry : cfg.dryRun = true) :
    ∀ (entries : List Entry) (s : ExtState),
      extractFrom cfg s entries =
        ({ s with count := s.count + (entries.filter (passesChecks cfg)).length }, false) := by
  intro entries
  induction entries with
  | nil => intro s; simp [extractFrom]
  | cons e rest ih =>
    intro s
    unfold extractFrom
    rw [extractEntry_dry cfg hdry s e]
    by_cases hp : passesChecks cfg e = true
    · simp only [hp, if_true, List.filter_cons, ih]
      simp [hp, Nat.add_assoc, Nat.add_comm 1]
    · simp only [Bool.not_eq_true] at hp
      simp [hp, List.filter_cons, ih]

/-- Splitting the three admission checks. -/
theorem passesChecks_split (cfg : ExtractCfg) (e : Entry) (h : passesChecks cfg e = true) :
    isSafePath e.name = true ∧
    (cfg.categories.isEmpty || matchesCategory cfg.categories e.name) = true ∧
    isPathWithinBase cfg.cwd (goJoin2 cfg.homeDir e.name) cfg.homeDir = true := by
  unfold passesChecks at h
  simp only [Bool.and_eq_true] at h
  tauto

/-- An entry with an unsafe name is skipped before any mutation. -/
theorem extractEntry_unsafe_name (cfg : ExtractCfg) (s : ExtState) (e : Entry)
    (h : isSafePath e.name = false) : extractEntry cfg s e = .ok s := by
  unfold extractEntry
  simp [h]

/-- An entry whose joined target escapes the base directory is skipped
before any mutation (whatever the earlier checks did). -/
theorem extractEntry_escapes_base (cfg : ExtractCfg) (s : ExtState) (e : Entry)
    (h : isPathWithinBase cfg.cwd (goJoin2 cfg.homeDir e.name) cfg.homeDir = false) :
    extractEntry cfg s e = .ok s := by
  unfold extractEntry
  cases hsafe : isSafePath e.name with
  | false => simp [hsafe]
  | true =>
    cases hcat : (!cfg.categories.isEmpty && !matchesCategory cfg.categories e.name) with
    | true => simp [hsafe, hcat]
    | false => simp [hsafe, hcat, h]

/-- An entry filtered out by the category selection is skipped before any
mutation. -/
theorem extractEntry_category_skip (cfg : ExtractCfg) (s : ExtState) (e : Entry)
    (hne : cfg.categories.isEmpty = false)
    (h : matchesCategory cfg.categories e.name = false) :
    extractEntry cfg s e = .ok s := by
  unfold extractEntry
  cases hsafe : isSafePath e.name with
  | false => simp [hsafe]
  | true => simp [hsafe, hne, h]

/-- The cumulative-quota hard abort: an admissible entry whose size would
push the running total over the ceiling stops the whole extraction. -/
theorem extractEntry_quota_abort (cfg : ExtractCfg) (s : ExtState) (e : Entry)
    (hdry : cfg.dryRun = false) (hpass : passesChecks cfg e = true)
    (hquota : s.totalExtracted + e.size > maxExtractTotalSize) :
    extractEntry cfg s e = .error s := by
  obtain ⟨h1, h2, h3⟩ := passesChecks_split cfg e hpass
  have hcat : (!cfg.categories.isEmpty && !matchesCategory cfg.categories e.name) = false := by
    rw [← Bool.not_or, h2]; rfl
  unfold extractEntry
  simp [h1, hcat, h3, hdry, hquota]

/-- A regular entry within both quotas materializes: parent directories
are created, the file is written with the entry's content and masked mode,
the count and the running total grow. -/
theorem extractEntry_reg_ok (cfg : ExtractCfg) (s : ExtState) (e : Entry)
    (hdry : cfg.dryRun = false) (hpass : passesChecks cfg e = true)
    (hreg : e.typeflag = .reg)
    (hquota : s.totalExtracted + e.size ≤ maxExtractTotalSize)
    (hfile : e.size ≤ maxExtractFileSize) :
    extractEntry cfg s e =
      .ok { count := s.count + 1, totalExtracted := s.totalExtracted + e.size,
            writes := s.writes ++
              [.mkdirParents (goDir (goJoin2 cfg.homeDir e.name)),
               .fileWrite (goJoin2 cfg.homeDir e.name) e.content (Nat.land e.mode 511)] } := by
  obtain ⟨h1, h2, h3⟩ := passesChecks_split cfg e hpass
  have hcat : (!cfg.categories.isEmpty && !matchesCategory cfg.categories e.name) = false := by
    rw [← Bool.not_or, h2]; rfl
  have hq : ¬ (s.totalExtracted + e.size > maxExtractTotalSize) := by omega
  have hf : ¬ (e.size > maxExtractFileSize) := by omega
  unfold extractEntry
  simp [h1, hcat, h3, hdry, hq, hreg, hf]

/-- A regular entry over the per-file ceiling is skipped after leaving a
truncated file: the count and the running total are unchanged and the
remaining entries are still processed. -/
theorem extractEntry_reg_over (cfg : ExtractCfg) (s : ExtState) (e : Entry)
    (hdry : cfg.dryRun = false) (hpass : passesChecks cfg e = true)
    (hreg : e.typeflag = .reg)
    (hquota : s.totalExtracted + e.size ≤ maxExtractTotalSize)
    (hover : e.size > maxExtractFileSize) :
    extractEntry cfg s e =
      .ok { s with writes := s.writes ++
              [.mkdirParents (goDir (goJoin2 cfg.homeDir e.name)),
               .filePartial (goJoin2 cfg.homeDir e.name) (Nat.land e.mode 511)] } := by
  obtain ⟨h1, h2, h3⟩ := passesChecks_split cfg e hpass
  have hcat : (!cfg.categories.isEmpty && !matchesCategory cfg.categories e.name) = false := by
    rw [← Bool.not_or, h2]; rfl
  have hq : ¬ (s.totalExtracted + e.size > maxExtractTotalSize) := by omega
  unfold extractEntry
  simp [h1, hcat, h3, hdry, hq, hreg, hover]

/-- A symlink entry with an unsafe link target is skipped, but only after
the entry's parent directories were created. -/
theorem extractEntry_symlink_unsafe_target (cfg : ExtractCfg) (s : ExtState) (e : Entry)
    (hdry : cfg.dryRun = false) (hpass : passesChecks cfg e = true)
    (hsym : e.typeflag = .symlink)
    (hquota : s.totalExtracted + e.size ≤ maxExtractTotalSize)
    (hbad : isSafePath e.linkname = false) :
    extractEntry cfg s e =
      .ok { s with writes := s.writes ++
              [.mkdirParents (goDir (goJoin2 cfg.homeDir e.name))] } := by
  obtain ⟨h1, h2, h3⟩ := passesChecks_split cfg e hpass
  have hcat : (!cfg.categories.isEmpty && !matchesCategory cfg.categories e.name) = false := by
    rw [← Bool.not_or, h2]; rfl
  have hq : ¬ (s.totalExtracted + e.size > maxExtractTotalSize) := by omega
  unfold extractEntry
  simp [h1, hcat, h3, hdry, hq, hsym, hbad]

/-- A symlink entry whose resolved target escapes the base is skipped, but
only after the entry's parent directories were created. -/
theorem extractEntry_symlink_escape (cfg : ExtractCfg) (s : ExtState) (e : Entry)
    (hdry : cfg.dryRun = false) (hpass : passesChecks cfg e = true)
    (hsym : e.typeflag = .symlink)
    (hquota : s.totalExtracted + e.size ≤ maxExtractTotalSize)
    (hgood : isSafePath e.linkname = true)
    (hesc : isPathWithinBase cfg.cwd
        (goJoin2 (goDir (goJoin2 cfg.homeDir e.name)) e.linkname) cfg.homeDir = false) :
    extractEntry cfg s e =
      .ok { s with writes := s.writes ++
              [.mkdirParents (goDir (goJoin2 cfg.homeDir e.name))] } := by
  obtain ⟨h1, h2, h3⟩ := passesChecks_split cfg e hpass
  have hcat : (!cfg.categories.isEmpty && !matchesCategory cfg.categories e.name) = false := by
    rw [← Bool.not_or, h2]; rfl
  have hq : ¬ (s.totalExtracted + e.size > maxExtractTotalSize) := by omega
  unfold extractEntry
  simp [h1, hcat, h3, hdry, hq, hsym, hgood, hesc]

/-- The mutation trace produced by a run of admissible in-quota regular
entries: parent creation then file write, per entry, in order. -/
def regWrites (cfg : ExtractCfg) (es : List Entry) : List FsWrite :=
  (es.map fun e =>
    [FsWrite.mkdirParents (goDir (goJoin2 cfg.homeDir e.name)),
     FsWrite.fileWrite (goJoin2 cfg.homeDir e.name) e.content (Nat.land e.mode 511)]).flatten

theorem regWrites_nil (cfg : ExtractCfg) : regWrites cfg [] = [] := rfl

theorem regWrites_cons (cfg : ExtractCfg) (e : Entry) (es : List Entry) :
    regWrites cfg (e :: es) =
      [FsWrite.mkdirParents (goDir (goJoin2 cfg.homeDir e.name)),
       FsWrite.fileWrite (goJoin2 cfg.homeDir e.name) e.content (Nat.land e.mode 511)] ++
        regWrites cfg es := by
  simp [regWrites]

/-- Summed header sizes of a list of entries. -/
def sizesSum (es : List Entry) : Nat :=
  (es.map fun e => e.size).sum

theorem sizesSum_nil : sizesSum [] = 0 := rfl

theorem sizesSum_cons (e : Entry) (es : List Entry) :
    sizesSum (e :: es) = e.size + sizesSum es := by
  simp [sizesSum]

/-- A run of admissible regular entries, each within the per-file ceiling,
whose summed sizes fit under the cumulative ceiling extracts completely:
every entry is materialized, counted and accounted, and no abort fires. -/
theorem extractFrom_all_ok (cfg : ExtractCfg) (hdry : cfg.dryRun = false) :
    ∀ (entries : List Entry) (s : ExtState),
      (∀ e ∈ entries, passesChecks cfg e = true ∧ e.typeflag = .reg ∧
        e.size ≤ maxExtractFileSize) →
      s.totalExtracted + sizesSum entries ≤ maxExtractTotalSize →
      extractFrom cfg s entries =
        ({ count := s.count + entries.length,
           totalExtracted := s.totalExtracted + sizesSum entries,
           writes := s.writes ++ regWrites cfg entries }, false) := by
  intro entries
  induction entries with
  | nil => intro s _ _; simp [extractFrom, sizesSum, regWrites]
  | cons e rest ih =>
    intro s hgood hquota
    obtain ⟨hpass, hreg, hfile⟩ := hgood e (by simp)
    have hrest : ∀ x ∈ rest, passesChecks cfg x = true ∧ x.typeflag = .reg ∧
        x.size ≤ maxExtractFileSize := fun x hx => hgood x (by simp [hx])
    rw [sizesSum_cons] at hquota
    have hq1 : s.totalExtracted + e.size ≤ maxExtractTotalSize := by omega
    unfold extractFrom
    rw [extractEntry_reg_ok cfg s e hdry hpass hreg hq1 hfile]
    simp only []
    rw [ih _ hrest (by simp only []; omega)]
    simp [sizesSum_cons, regWrites_cons, List.append_assoc]
    omega

/-- The index of the first entry whose size, added to the running total,
would breach the given cumulative limit (entry count when none does). -/
def breachIdx (limit : Nat) : Nat → List Entry → Nat
  | _, [] => 0
  | total, e :: rest =>
    if total + e.size > limit then 0 else breachIdx limit (total + e.size) rest + 1

theorem breachIdx_cons (limit total : Nat) (e : Entry) (rest : List Entry) :
    breachIdx limit total (e :: rest) =
      if total + e.size > limit then 0
      else breachIdx limit (total + e.size) rest + 1 := rfl

/-- A run of admissible regular entries, each within the per-file ceiling,
whose summed sizes exceed the cumulative ceiling aborts exactly at the
first entry whose addition would breach it, leaving the earlier entries
materialized. -/
theorem extractFrom_breach (cfg : ExtractCfg) (hdry : cfg.dryRun = false) :
    ∀ (entries : List Entry) (s : ExtState),
      (∀ e ∈ entries, passesChecks cfg e = true ∧ e.typeflag = .reg ∧
        e.size ≤ maxExtractFileSize) →
      s.totalExtracted ≤ maxExtractTotalSize →
      s.totalExtracted + sizesSum entries > maxExtractTotalSize →
      breachIdx maxExtractTotalSize s.totalExtracted entries < entries.length ∧
      (∀ j, j < breachIdx maxExtractTotalSize s.totalExtracted entries →
        s.totalExtracted + sizesSum (entries.take (j + 1)) ≤ maxExtractTotalSize) ∧
      s.totalExtracted +
          sizesSum (entries.take (breachIdx maxExtractTotalSize s.totalExtracted entries + 1)) >
        maxExtractTotalSize ∧
      extractFrom cfg s entries =
        ({ count := s.count + breachIdx maxExtractTotalSize s.totalExtracted entries,
           totalExtracted := s.totalExtracted +
             sizesSum (entries.take (breachIdx maxExtractTotalSize s.totalExtracted entries)),
           writes := s.writes ++
             regWrites cfg
               (entries.take (breachIdx maxExtractTotalSize s.totalExtracted entries)) },
         true) := by
  intro entries
  induction entries with
  | nil =>
    intro s _ hle hover
    rw [sizesSum_nil] at hover
    exact absurd hover (by omega)
  | cons e rest ih =>
    intro s hgood hle hover
    obtain ⟨hpass, hreg, hfile⟩ := hgood e (by simp)
    have hrest : ∀ x ∈ rest, passesChecks cfg x = true ∧ x.typeflag = .reg ∧
        x.size ≤ maxExtractFileSize := fun x hx => hgood x (by simp [hx])
    by_cases hq1 : s.totalExtracted + e.size > maxExtractTotalSize
    · have hbi : breachIdx maxExtractTotalSize s.totalExtracted (e :: rest) = 0 := by
        rw [breachIdx_cons, if_pos hq1]
      rw [hbi]
      refine ⟨by simp, fun j hj => absurd hj (by omega), ?_, ?_⟩
      · simpa [sizesSum_cons, sizesSum_nil] using hq1
      · unfold extractFrom
        rw [extractEntry_quota_abort cfg s e hdry hpass hq1]
        simp [regWrites_nil, sizesSum_nil]
    · have hq1' : s.totalExtracted + e.size ≤ maxExtractTotalSize := by omega
      have hover' :
          (s.totalExtracted + e.size) + sizesSum rest > maxExtractTotalSize := by
        rw [sizesSum_cons] at hover
        omega
      have hbi : breachIdx maxExtractTotalSize s.totalExtracted (e :: rest) =
          breachIdx maxExtractTotalSize (s.totalExtracted + e.size) rest + 1 := by
        rw [breachIdx_cons, if_neg hq1]
      obtain ⟨hk, hpre, hbr, hrun⟩ :=
        ih { count := s.count + 1, totalExtracted := s.totalExtracted + e.size,
             writes := s.writes ++
               [.mkdirParents (goDir (goJoin2 cfg.homeDir e.name)),
                .fileWrite (goJoin2 cfg.homeDir e.name) e.content (Nat.land e.mode 511)] }
          hrest (by simp only []; omega) (by simpa using hover')
      dsimp only at hk hpre hbr hrun
      rw [hbi]
      refine ⟨by simpa using Nat.succ_lt_succ hk, ?_, ?_, ?_⟩
      · intro j hj
        cases j with
        | zero => simpa [sizesSum_cons, sizesSum_nil] using hq1'
        | succ j2 =>
          have := hpre j2 (by omega)
          simp only [List.take_succ_cons, sizesSum_cons] at this ⊢
          omega
      · have := hbr
        simp only [List.take_succ_cons, sizesSum_cons] at this ⊢
        omega
      · unfold extractFrom
        rw [extractEntry_reg_ok cfg s e hdry hpass hreg hq1' hfile]
        simp only [hrun, List.take_succ_cons, sizesSum_cons, regWrites_cons]
        simp [List.append_assoc]
        omega

namespace Claims

/-- C10.  The extraction count differs between modes: in dry-run mode
every entry of any type that passes the path-safety, category and
within-base checks is counted and nothing is written; in non-dry-run mode
the count equals the number of successfully materialized regular files in
the mutation trace (directories and symlinks are created but not counted,
and a failed materialization is not counted); consequently an archive
holding one directory entry dry-counts 1 but non-dry-counts 0. -/
theorem c10_count_modes :
    (∀ (cfg : ExtractCfg) (entries : List Entry), cfg.dryRun = true →
        extractArchive cfg entries =
          ({ count := (entries.filter (passesChecks cfg)).length,
             totalExtracted := 0, writes := [] }, false)) ∧
    (∀ (cfg : ExtractCfg) (entries : List Entry), cfg.dryRun = false →
        (extractArchive cfg entries).1.count =
          countFileWrites (extractArchive cfg entries).1.writes) ∧
    (extractArchive ⟨"/home/u".toList, "/".toList, [], true⟩
        [⟨".d".toList, .dir, 493, 0, [], []⟩] =
      ({ count := 1, totalExtracted := 0, writes := [] }, false)) ∧
    (extractArchive ⟨"/home/u".toList, "/".toList, [], false⟩
        [⟨".d".toList, .dir, 493, 0, [], []⟩] =
      ({ count := 0, totalExtracted := 0,
         writes := [.mkdirParents "/home/u".toList,
                    .mkdirAll "/home/u/.d".toList 493] }, false)) := by
  refine ⟨?_, ?_, by decide, by decide⟩
  · intro cfg entries hdry
    unfold extractArchive
    rw [extractFrom_dry cfg hdry entries]
    simp
  · intro cfg entries hdry
    exact extractFrom_count cfg hdry entries _ (by simp [countFileWrites])

/-- C10 witness: both quantified halves applied at concrete runs. -/
theorem c10_witness :
    extractArchive ⟨"/home/u".toList, "/".toList, [], true⟩
        [⟨".zshrc".toList, .reg, 420, 1, [], [1]⟩] =
      ({ count := 1, totalExtracted := 0, writes := [] }, false) ∧
    (extractArchive ⟨"/home/u".toList, "/".toList, [], false⟩
        [⟨".zshrc".toList, .reg, 420, 1, [], [1]⟩]).1.count =
      countFileWrites (extractArchive ⟨"/home/u".toList, "/".toList, [], false⟩
        [⟨".zshrc".toList, .reg, 420, 1, [], [1]⟩]).1.writes := by
  constructor
  · have h := c10_count_modes.1 ⟨"/home/u".toList, "/".toList, [], true⟩
      [⟨".zshrc".toList, .reg, 420, 1, [], [1]⟩] rfl
    rw [h]
    decide
  · exact c10_count_modes.2.1 ⟨"/home/u".toList, "/".toList, [], false⟩
      [⟨".zshrc".toList, .reg, 420, 1, [], [1]⟩] rfl

end Claims

/-- Masking with the 9 permission bits is idempotent. -/
theorem land511_idem (m : Nat) : Nat.land (Nat.land m 511) 511 = Nat.land m 511 := by
  show ((m &&& 511) &&& 511) = (m &&& 511)
  apply Nat.eq_of_testBit_eq
  intro i
  rw [Nat.testBit_land, Nat.testBit_land]
  cases Nat.testBit m i <;> cases Nat.testBit 511 i <;> rfl

/-- The successful file materializations of a clean regular run, in
order. -/
theorem regWrites_filter (cfg : ExtractCfg) :
    ∀ es : List Entry,
      (regWrites cfg es).filter FsWrite.isFileWrite =
        es.map fun e =>
          FsWrite.fileWrite (goJoin2 cfg.homeDir e.name) e.content (Nat.land e.mode 511) := by
  intro es
  induction es with
  | nil => rfl
  | cons e rest ih =>
    rw [regWrites_cons]
    simp [List.filter_append, FsWrite.isFileWrite, ih]

namespace Claims

/-- C2 counterexample: a regular entry over the per-file ceiling does not
hard-abort the extraction — the entry is skipped (leaving a truncated
file) and the following entry is still extracted, with no error
returned. -/
theorem c2_counterexample :
    maxExtractFileSize + 1 > maxExtractFileSize ∧
    extractArchive ⟨"/h".toList, "/".toList, [], false⟩
        [⟨".big".toList, .reg, 420, maxExtractFileSize + 1, [], []⟩,
         ⟨".ok".toList, .reg, 420, 1, [], [7]⟩] =
      ({ count := 1, totalExtracted := 1,
         writes := [.mkdirParents "/h".toList, .filePartial "/h/.big".toList 420,
                    .mkdirParents "/h".toList, .fileWrite "/h/.ok".toList [7] 420] },
       false) :=
  ⟨by decide, by decide⟩

/-- C2 (amended).  During non-dry-run extraction, a regular entry whose
content exceeds the per-file ceiling is skipped with a warning rather than
aborting: a truncated file of at most ceiling size remains at its target,
the entry contributes neither to the count nor to the running total, and
extraction continues with the remaining entries; only the cumulative
ceiling hard-aborts. -/
theorem c2_perfile_skip (cfg : ExtractCfg) (s : ExtState) (e : Entry) (rest : List Entry)
    (hdry : cfg.dryRun = false) (hpass : passesChecks cfg e = true)
    (hreg : e.typeflag = .reg)
    (hquota : s.totalExtracted + e.size ≤ maxExtractTotalSize)
    (hover : e.size > maxExtractFileSize) :
    extractFrom cfg s (e :: rest) =
      extractFrom cfg
        { s with writes := s.writes ++
            [.mkdirParents (goDir (goJoin2 cfg.homeDir e.name)),
             .filePartial (goJoin2 cfg.homeDir e.name) (Nat.land e.mode 511)] } rest := by
  show (match extractEntry cfg s e with
        | Except.ok s1 => extractFrom cfg s1 rest
        | Except.error s1 => (s1, true)) = _
  rw [extractEntry_reg_over cfg s e hdry hpass hreg hquota hover]

/-- C2 witness: the amended theorem applied at a concrete archive. -/
theorem c2_witness :
    extractFrom ⟨"/h".toList, "/".toList, [], false⟩ ⟨0, 0, []⟩
        [⟨".big".toList, .reg, 420, maxExtractFileSize + 1, [], []⟩,
         ⟨".ok".toList, .reg, 420, 1, [], [7]⟩] =
      extractFrom ⟨"/h".toList, "/".toList, [], false⟩
        ⟨0, 0, [.mkdirParents "/h".toList, .filePartial "/h/.big".toList 420]⟩
        [⟨".ok".toList, .reg, 420, 1, [], [7]⟩] := by
  have h := c2_perfile_skip ⟨"/h".toList, "/".toList, [], false⟩ ⟨0, 0, []⟩
    ⟨".big".toList, .reg, 420, maxExtractFileSize + 1, [], []⟩
    [⟨".ok".toList, .reg, 420, 1, [], [7]⟩]
    rfl (by decide) rfl (by decide) (by decide)
  rw [h]
  decide

/-- C3.  Round-trip: a finite list of regular files with collector-shaped
safe relative paths, each within the per-file ceiling and with total size
within the cumulative ceiling, written through the archive writer and then
extracted, materializes every file — in order, with content bytes
identical to the source and the mode agreeing on the 9 permission bits —
and the extraction succeeds. -/
theorem c3_roundtrip (files : List SrcFile) (home cwd : List Char)
    (hsafe : ∀ f ∈ files, isSafePath f.relPath = true)
    (hwithin : ∀ f ∈ files, isPathWithinBase cwd (goJoin2 home f.relPath) home = true)
    (hfile : ∀ f ∈ files, f.content.length ≤ maxExtractFileSize)
    (htotal : sizesSum (writeArchive files) ≤ maxExtractTotalSize) :
    extractArchive ⟨home, cwd, [], false⟩ (writeArchive files) =
      ({ count := files.length,
         totalExtracted := sizesSum (writeArchive files),
         writes := regWrites ⟨home, cwd, [], false⟩ (writeArchive files) }, false) ∧
    ((extractArchive ⟨home, cwd, [], false⟩ (writeArchive files)).1.writes.filter
        FsWrite.isFileWrite) =
      files.map fun f =>
        FsWrite.fileWrite (goJoin2 home f.relPath) f.content (Nat.land f.mode 511) := by
  have hgood : ∀ e ∈ writeArchive files,
      passesChecks (⟨home, cwd, [], false⟩ : ExtractCfg) e = true ∧
      e.typeflag = .reg ∧ e.size ≤ maxExtractFileSize := by
    intro e he
    rcases List.mem_map.mp (by simpa [writeArchive] using he) with ⟨f, hf, rfl⟩
    refine ⟨?_, rfl, hfile f hf⟩
    unfold passesChecks addFileToTar
    simp [hsafe f hf, hwithin f hf]
  have hrun := extractFrom_all_ok ⟨home, cwd, [], false⟩ rfl (writeArchive files)
    ⟨0, 0, []⟩ hgood (by simpa using htotal)
  have hmain : extractArchive ⟨home, cwd, [], false⟩ (writeArchive files) =
      ({ count := files.length,
         totalExtracted := sizesSum (writeArchive files),
         writes := regWrites ⟨home, cwd, [], false⟩ (writeArchive files) }, false) := by
    unfold extractArchive
    rw [hrun]
    simp [writeArchive]
  refine ⟨hmain, ?_⟩
  rw [hmain]
  rw [regWrites_filter]
  simp [writeArchive, addFileToTar, Function.comp, land511_idem]

/-- C3 witness: a concrete one-file round trip. -/
theorem c3_witness :
    (extractArchive ⟨"/home/u".toList, "/".toList, [], false⟩
        (writeArchive [⟨".zshrc".toList, 420, [104, 105]⟩])).1.writes.filter
        FsWrite.isFileWrite =
      [FsWrite.fileWrite "/home/u/.zshrc".toList [104, 105] 420] := by
  have h := (c3_roundtrip [⟨".zshrc".toList, 420, [104, 105]⟩]
    "/home/u".toList "/".toList
    (by decide) (by decide) (by decide) (by decide)).2
  rw [h]
  decide

/-- C4 counterexample: for a symlink entry the link-target checks are
evaluated only after the entry parent directories were created, so an
entry that is ultimately skipped (unsafe link target) has already caused a
filesystem mutation. -/
theorem c4_counterexample :
    isSafePath "../../../etc/passwd".toList = false ∧
    extractArchive ⟨"/h/u".toList, "/".toList, [], false⟩
        [⟨".d/.link".toList, .symlink, 511, 0, "../../../etc/passwd".toList, []⟩] =
      ({ count := 0, totalExtracted := 0,
         writes := [.mkdirParents "/h/u/.d".toList] }, false) ∧
    ([FsWrite.mkdirParents "/h/u/.d".toList] : List FsWrite) ≠ [] :=
  ⟨by decide, by decide, by decide⟩

/-- C4 (amended).  The extractor evaluates isSafeRelativePath on every
entry name and isWithinBase on every joined path before any filesystem
mutation for that entry, skipping failing entries; for symlink entries the
link-target checks (isSafeRelativePath on the target and isWithinBase
relative to the link directory) are evaluated before the symlink itself is
removed or created, but after the entry parent directories were made; and
an archive containing a crafted dotdot entry still extracts its remaining
safe entries and returns success. -/
theorem c4_check_ordering :
    (∀ (cfg : ExtractCfg) (s : ExtState) (e : Entry),
        isSafePath e.name = false → extractEntry cfg s e = .ok s) ∧
    (∀ (cfg : ExtractCfg) (s : ExtState) (e : Entry),
        isPathWithinBase cfg.cwd (goJoin2 cfg.homeDir e.name) cfg.homeDir = false →
        extractEntry cfg s e = .ok s) ∧
    (∀ (cfg : ExtractCfg) (s : ExtState) (e : Entry),
        cfg.dryRun = false → passesChecks cfg e = true → e.typeflag = .symlink →
        s.totalExtracted + e.size ≤ maxExtractTotalSize →
        isSafePath e.linkname = false →
        extractEntry cfg s e =
          .ok { s with writes := s.writes ++
                  [.mkdirParents (goDir (goJoin2 cfg.homeDir e.name))] }) ∧
    (∀ (cfg : ExtractCfg) (s : ExtState) (e : Entry),
        cfg.dryRun = false → passesChecks cfg e = true → e.typeflag = .symlink →
        s.totalExtracted + e.size ≤ maxExtractTotalSize →
        isSafePath e.linkname = true →
        isPathWithinBase cfg.cwd
            (goJoin2 (goDir (goJoin2 cfg.homeDir e.name)) e.linkname) cfg.homeDir = false →
        extractEntry cfg s e =
          .ok { s with writes := s.writes ++
                  [.mkdirParents (goDir (goJoin2 cfg.homeDir e.name))] }) ∧
    extractArchive ⟨"/h/u".toList, "/".toList, [], false⟩
        [⟨"../../etc/passwd".toList, .reg, 420, 6, [], [1, 2, 3, 4, 5, 6]⟩,
         ⟨".safe".toList, .reg, 420, 4, [], [9, 9, 9, 9]⟩] =
      ({ count := 1, totalExtracted := 4,
         writes := [.mkdirParents "/h/u".toList,
                    .fileWrite "/h/u/.safe".toList [9, 9, 9, 9] 420] }, false) := by
  refine ⟨?_, ?_, ?_, ?_, by decide⟩
  · intro cfg s e h
    exact extractEntry_unsafe_name cfg s e h
  · intro cfg s e h
    exact extractEntry_escapes_base cfg s e h
  · intro cfg s e hdry hpass hsym hq hbad
    exact extractEntry_symlink_unsafe_target cfg s e hdry hpass hsym hq hbad
  · intro cfg s e hdry hpass hsym hq hgood hesc
    exact extractEntry_symlink_escape cfg s e hdry hpass hsym hq hgood hesc

/-- C4 witness: the quantified parts applied at concrete entries. -/
theorem c4_witness :
    extractEntry ⟨"/h".toList, "/".toList, [], false⟩ ⟨0, 0, []⟩
        ⟨"../x".toList, .reg, 420, 1, [], [1]⟩ = .ok ⟨0, 0, []⟩ ∧
    extractEntry ⟨"/h".toList, "/".toList, [], false⟩ ⟨0, 0, []⟩
        ⟨".d/.l".toList, .symlink, 511, 0, "../../z".toList, []⟩ =
      .ok ⟨0, 0, [.mkdirParents (goDir (goJoin2 "/h".toList ".d/.l".toList))]⟩ := by
  constructor
  · exact c4_check_ordering.1 _ _ _ (by decide)
  · have h := c4_check_ordering.2.2.1 ⟨"/h".toList, "/".toList, [], false⟩ ⟨0, 0, []⟩
      ⟨".d/.l".toList, .symlink, 511, 0, "../../z".toList, []⟩
      rfl (by decide) rfl (by decide) (by decide)
    rw [h]
    rfl

/-- C5 counterexample: an archive whose summed regular-file sizes exceed
the cumulative ceiling, yet extraction returns no quota error, because the
single oversized entry is skipped by the path-safety check and never adds
to the running total. -/
theorem c5_counterexample :
    sizesSum [⟨"../x".toList, .reg, 420, maxExtractTotalSize + 1, [], []⟩] >
      maxExtractTotalSize ∧
    extractArchive ⟨"/home/u".toList, "/".toList, [], false⟩
        [⟨"../x".toList, .reg, 420, maxExtractTotalSize + 1, [], []⟩] =
      ({ count := 0, totalExtracted := 0, writes := [] }, false) :=
  ⟨by decide, by decide⟩

/-- C5 (amended).  For every archive of admissible regular-file entries
(each passing the path-safety, category and within-base checks and each
within the per-file ceiling) whose summed sizes exceed the cumulative
ceiling, non-dry-run extraction stops at the first entry whose addition
would breach the ceiling and returns the quota error, while all entries
processed before the breach remain materialized (no rollback). -/
theorem c5_cumulative_quota (cfg : ExtractCfg) (entries : List Entry)
    (hdry : cfg.dryRun = false)
    (hgood : ∀ e ∈ entries, passesChecks cfg e = true ∧ e.typeflag = .reg ∧
        e.size ≤ maxExtractFileSize)
    (hover : sizesSum entries > maxExtractTotalSize) :
    breachIdx maxExtractTotalSize 0 entries < entries.length ∧
    (∀ j, j < breachIdx maxExtractTotalSize 0 entries →
      sizesSum (entries.take (j + 1)) ≤ maxExtractTotalSize) ∧
    sizesSum (entries.take (breachIdx maxExtractTotalSize 0 entries + 1)) >
      maxExtractTotalSize ∧
    extractArchive cfg entries =
      ({ count := breachIdx maxExtractTotalSize 0 entries,
         totalExtracted := sizesSum (entries.take (breachIdx maxExtractTotalSize 0 entries)),
         writes := regWrites cfg (entries.take (breachIdx maxExtractTotalSize 0 entries)) },
       true) := by
  obtain ⟨hk, hpre, hbr, hrun⟩ :=
    extractFrom_breach cfg hdry entries ⟨0, 0, []⟩ hgood (by simp) (by simpa using hover)
  dsimp only at hk hpre hbr hrun
  refine ⟨hk, ?_, by simpa using hbr, ?_⟩
  · intro j hj
    simpa using hpre j hj
  · unfold extractArchive
    rw [hrun]
    simp

/-- C5 witness: eleven admissible entries of exactly the per-file ceiling
breach the 10 GB cumulative ceiling at the eleventh entry. -/
theorem c5_witness :
    breachIdx maxExtractTotalSize 0
        (List.replicate 11
          (⟨".f".toList, .reg, 420, maxExtractFileSize, [], []⟩ : Entry)) <
      (List.replicate 11
        (⟨".f".toList, .reg, 420, maxExtractFileSize, [], []⟩ : Entry)).length ∧
    extractArchive ⟨"/h".toList, "/".toList, [], false⟩
        (List.replicate 11 (⟨".f".toList, .reg, 420, maxExtractFileSize, [], []⟩ : Entry)) =
      ({ count := breachIdx maxExtractTotalSize 0
            (List.replicate 11
              (⟨".f".toList, .reg, 420, maxExtractFileSize, [], []⟩ : Entry)),
         totalExtracted := sizesSum
           ((List.replicate 11
              (⟨".f".toList, .reg, 420, maxExtractFileSize, [], []⟩ : Entry)).take
             (breachIdx maxExtractTotalSize 0
               (List.replicate 11
                 (⟨".f".toList, .reg, 420, maxExtractFileSize, [], []⟩ : Entry)))),
         writes := regWrites ⟨"/h".toList, "/".toList, [], false⟩
           ((List.replicate 11
              (⟨".f".toList, .reg, 420, maxExtractFileSize, [], []⟩ : Entry)).take
             (breachIdx maxExtractTotalSize 0
               (List.replicate 11
                 (⟨".f".toList, .reg, 420, maxExtractFileSize, [], []⟩ : Entry)))) },
       true) := by
  have h := c5_cumulative_quota ⟨"/h".toList, "/".toList, [], false⟩
    (List.replicate 11 (⟨".f".toList, .reg, 420, maxExtractFileSize, [], []⟩ : Entry))
    rfl (by decide) (by decide)
  exact ⟨h.1, h.2.2.2⟩

/-- C7 counterexample: the original archive is encrypted (age suffix) but
the encryption run fails, and the safety backup is then written to disk
unencrypted — an execution path with a plaintext disk write. -/
theorem c7_counterexample :
    detectMethod "b.tar.gz.age".toList ≠ Method.noEnc ∧
    ((createSafetyBackup
        { backupDir := "/b".toList, timestamp := "20250101_000000".toList,
          canEncrypt := true, promptInput := .eof,
          encCreateOk := true, encryptOk := false, writerOk := true }
        ⟨"/home/u".toList, "/".toList, [], false⟩
        (fun _ => true)
        [⟨".zshrc".toList, .reg, 420, 1, [], [1]⟩]
        "b.tar.gz.age".toList).2.any SbEffect.isPlainWrite) = true :=
  ⟨by decide, by decide⟩

/-- C7 (amended).  Whenever the archive being restored was itself
encrypted, the safety backup is attempted through the pipe-to-encryptor
path; provided encryptor creation and the encryption run succeed, no
execution path writes the safety-backup bytes to disk unencrypted
(whether the archive writer succeeds or fails); when encryptor creation
or the encryption run fails the code deliberately falls back to an
unencrypted on-disk safety backup. -/
theorem c7_stream_when_encrypted :
    (∀ (env : SbEnv) (cfg : ExtractCfg) (existsOnDisk : List Char → Bool)
        (entries : List Entry) (originalArchive : List Char),
      detectMethod originalArchive ≠ .noEnc →
      env.encCreateOk = true → env.encryptOk = true →
      ∀ eff ∈ (createSafetyBackup env cfg existsOnDisk entries originalArchive).2,
        eff.isPlainWrite = false) ∧
    ((createSafetyBackup
        { backupDir := "/b".toList, timestamp := "20250101_000000".toList,
          canEncrypt := true, promptInput := .eof,
          encCreateOk := false, encryptOk := true, writerOk := true }
        ⟨"/home/u".toList, "/".toList, [], false⟩
        (fun _ => true)
        [⟨".zshrc".toList, .reg, 420, 1, [], [1]⟩]
        "b.tar.gz.age".toList).2.any SbEffect.isPlainWrite) = true := by
  constructor
  · intro env cfg existsOnDisk entries originalArchive hm hcreate henc eff heff
    unfold createSafetyBackup at heff
    rw [hcreate, henc] at heff
    simp only [Bool.not_true, Bool.false_eq_true, if_true, if_false] at heff
    rw [if_pos hm] at heff
    by_cases h0 : (findFilesToBackup cfg existsOnDisk entries).isEmpty = true
    · rw [if_pos h0] at heff
      simp at heff
    · rw [if_neg h0] at heff
      rcases hpr : (if (containsSensitiveFiles (findFilesToBackup cfg existsOnDisk entries) &&
            !env.canEncrypt) = true then
          promptForSensitiveBackup env.promptInput (findFilesToBackup cfg existsOnDisk entries)
        else Except.ok (findFilesToBackup cfg existsOnDisk entries)) with err | files
      · rw [hpr] at heff
        simp at heff
      · rw [hpr] at heff
        by_cases hf : files.isEmpty = true
        · simp only [hf, if_true, if_pos] at heff
          simp at heff
        · simp only [hf, Bool.false_eq_true, if_false] at heff
          by_cases hwb : env.writerOk = true
          · rw [if_pos hwb] at heff
            simp at heff
            rcases heff with rfl | rfl <;> rfl
          · rw [if_neg hwb] at heff
            simp at heff
            rcases heff with rfl | rfl | rfl <;> rfl
  · decide

/-- C7 witness: the quantified half applied at a concrete run whose
encryptor creation and encryption run succeed but whose archive writer
fails — the execution path still produces no plaintext disk write. -/
theorem c7_witness :
    SbEffect.isPlainWrite
        (SbEffect.encStream
          (goJoin2 (goJoin2 "/b".toList "pre-restore".toList)
            (safetyEncName "20250101_000000".toList Method.age))) = false :=
  c7_stream_when_encrypted.1
    { backupDir := "/b".toList, timestamp := "20250101_000000".toList,
      canEncrypt := true, promptInput := .eof,
      encCreateOk := true, encryptOk := true, writerOk := false }
    ⟨"/home/u".toList, "/".toList, [], false⟩
    (fun _ => true)
    [⟨".zshrc".toList, .reg, 420, 1, [], [1]⟩]
    "b.tar.gz.age".toList
    (by decide) rfl rfl _ (by decide)

/-- C1 (code bug).  Answering the safety-backup prompt with the cancel
choice makes createSafetyBackup fail with the user-cancellation error, yet
Restore.Run only warns about a failed safety backup and proceeds: the
extraction runs, a file is written to disk, and the result reports
success — the cancellation is not a terminal failure as the claim (and the
prompt's own wording) require. -/
theorem c1_cancel_not_fatal :
    (createSafetyBackup
        { backupDir := "/b".toList, timestamp := "20250101_000000".toList,
          canEncrypt := false, promptInput := .line ['3'],
          encCreateOk := true, encryptOk := true, writerOk := true }
        ⟨"/home/u".toList, "/".toList, [], false⟩
        (fun _ => true)
        [⟨".ssh/id_rsa".toList, .reg, 384, 1, [], [55]⟩]
        "backup.tar.gz".toList).1 = .error .cancelledByUser ∧
    restoreRun
        { backupDir := "/b".toList, timestamp := "20250101_000000".toList,
          canEncrypt := false, promptInput := .line ['3'],
          encCreateOk := true, encryptOk := true, writerOk := true }
        { dryRun := false, noBackup := false, categories := [] }
        "/home/u".toList "/".toList (fun _ => true)
        [⟨".ssh/id_rsa".toList, .reg, 384, 1, [], [55]⟩]
        "backup.tar.gz".toList true true =
      ({ success := true, runError := none, safetyBackup := [] }, [],
       ⟨1, 1, [.mkdirParents "/home/u/.ssh".toList,
               .fileWrite "/home/u/.ssh/id_rsa".toList [55] 384]⟩) :=
  ⟨rfl, by decide⟩

end Claims

end Dotpak
